import Mathlib

/-!
Verification of the fractionaiBot automation core against its
natural-language specification.  Each JavaScript function that a claim
depends on is translated into an executable Lean definition (a shallow
embedding): object maps become association lists, `Date.now()` becomes an
explicit clock value threaded through the functions, `await delay(ms)` in
the deterministic timing model advances the clock by exactly `ms`, and
calls into external libraries (ethers, the CycleTLS transport) become
explicit oracle parameters.  Theorems about these definitions settle the
frozen claims.
-/

namespace FractionBot

/-! ## String primitives

The JavaScript string operations the program uses (`split`, `trim`,
`startsWith`, `includes`, `toLowerCase`) are modelled over `List Char` by
structural recursion, so that every theorem about a concrete input can be
checked by `decide`. -/

/-- Models `s.split(sep)` for a one-character separator: JavaScript semantics,
always returning at least one (possibly empty) piece. -/
def chSplit (sep : Char) : List Char → List (List Char)
  | [] => [[]]
  | c :: rest =>
    let r := chSplit sep rest
    if c = sep then [] :: r
    else
      match r with
      | [] => [[c]]
      | h :: t => (c :: h) :: t

/-- Whitespace recognised by `String.prototype.trim` (the forms that occur
in text files: space, tab, carriage return, line feed). -/
def isJsSpace (c : Char) : Bool :=
  c = ' ' || c = '\t' || c = '\r' || c = '\n'

/-- Models `s.trim()` on the character list. -/
def chTrim (l : List Char) : List Char :=
  ((l.dropWhile isJsSpace).reverse.dropWhile isJsSpace).reverse

/-- Models `s.includes(pat)` / the `error.message.includes(...)` checks. -/
def chHasInfix (pat : List Char) : List Char → Bool
  | [] => pat.isPrefixOf []
  | c :: rest => pat.isPrefixOf (c :: rest) || chHasInfix pat rest

/-- Models `s.split(sep)` returning `String` pieces. -/
def strSplitOn (s : String) (sep : Char) : List String :=
  (chSplit sep s.data).map (fun l => ⟨l⟩)

/-- Models `s.trim()`. -/
def strTrim (s : String) : String := ⟨chTrim s.data⟩

/-- Models `s.startsWith(pre)`. -/
def strStartsWith (s pre : String) : Bool := pre.data.isPrefixOf s.data

/-- Models `s.includes(pat)`. -/
def strContains (s pat : String) : Bool := chHasInfix pat.data s.data

/-- Models `s.toLowerCase()` (ASCII, which covers hex Ethereum addresses). -/
def strLower (s : String) : String := ⟨s.data.map Char.toLower⟩

/-! ## JavaScript association-object model

A JavaScript plain object used as a string-keyed map, with insertion-order
preservation: writing an existing key replaces its value in place, writing
a fresh key appends it.  Reading a missing key yields `undefined`, modelled
as `none`. -/

/-- Lookup of `obj[k]`; `none` models `undefined`. -/
def objGet {α : Type} (m : List (String × α)) (k : String) : Option α :=
  match m.find? (fun p => p.1 == k) with
  | some p => some p.2
  | none => none

/-- Assignment `obj[k] = v` with JavaScript key-order semantics. -/
def objSet {α : Type} (m : List (String × α)) (k : String) (v : α) :
    List (String × α) :=
  if (m.map Prod.fst).contains k then
    m.map (fun p => if p.1 == k then (p.1, v) else p)
  else
    m ++ [(k, v)]

/-! ## ProxyManager (src/core/ProxyManager.js) -/

/-- A proxy record `{host, port, username, password}`.  `none` models a
`null`/`undefined` field. -/
structure Proxy where
  host : Option String
  port : Option Nat
  username : Option String
  password : Option String
deriving Repr, DecidableEq

/-- An account as handed to `assignProxiesToAccounts`.  `extra` stands for
every remaining own property of the JavaScript object, which the spread
`{...account}` copies verbatim. -/
structure Account where
  privateKey : String
  aliasName : String
  address : String
  proxy : Option Proxy
  extra : List (String × String)
deriving Repr, DecidableEq

/-- JavaScript truthiness of `account.proxy && account.proxy.host`:
the proxy object must exist and its `host` must be a non-empty string. -/
def hasExplicitProxy (a : Account) : Bool :=
  match a.proxy with
  | some p =>
    match p.host with
    | some h => h ≠ ""
    | none => false
  | none => false

/-- Models `ProxyManager.assignProxiesToAccounts` (ProxyManager.js:77-99).
`dynamicProxy` is the result of `getDynamicProxy()` (`none` when proxying
is disabled or unconfigured).  With no dynamic proxy every account's
`proxy` is overwritten with `{host: null, port: null}`; otherwise accounts
whose proxy host is truthy are returned as-is and the rest receive a copy
of the dynamic proxy. -/
def assignProxiesToAccounts (dynamicProxy : Option Proxy)
    (accounts : List Account) : List Account :=
  match dynamicProxy with
  | none =>
    accounts.map (fun account =>
      { account with proxy := some ⟨none, none, none, none⟩ })
  | some proxy =>
    accounts.map (fun account =>
      if hasExplicitProxy account then account
      else { account with proxy := some proxy })

/-! ## TaskManager.start (src/main.js:197-307), worker-spawning part -/

/-- Models `const maxThreads = config.concurrency.maxWorkers || 5` followed by
`Math.min(maxThreads, this.accounts.length)` (main.js:221-222).  A falsy
(`0`) configured value falls back to the default `5`. -/
def threadCount (maxWorkers : Nat) (numAccounts : Nat) : Nat :=
  min (if maxWorkers = 0 then 5 else maxWorkers) numAccounts

/-- The accounts actually handed to spawned workers: the loop
`for (let i = 0; i < threadCount; i++)` uses `this.accounts[i]`
(main.js:228-229), i.e. the first `threadCount` accounts in list order. -/
def spawnedAccounts (maxWorkers : Nat) (accounts : List Account) :
    List Account :=
  accounts.take (threadCount maxWorkers accounts.length)

/-! ## KeyManager.loadAccounts (src/core/KeyManager.js:26-70)

The file system and the ethers library are oracles: `fileContent` is
`none` when `fs.existsSync` is false, otherwise the file text; and
`walletAddress pk` is `some addr` exactly when `new ethers.Wallet(pk)`
succeeds with `wallet.address = addr`, `none` when it throws. -/

/-- One entry of the list returned by `KeyManager.loadAccounts`. -/
structure KMAccount where
  privateKey : String
  aliasName : String
  address : String
deriving Repr, DecidableEq

/-- Models `privateKey.startsWith('0x') ? privateKey : '0x' + privateKey`
(KeyManager.js:50-52). -/
def normalizeKey (pk : String) : String :=
  if strStartsWith pk "0x" then pk else "0x" ++ pk

/-- The line filter of KeyManager.js:38-40: trim every line, keep the
non-empty ones that do not start with `#`. -/
def keptLines (data : String) : List String :=
  ((strSplitOn data '\n').map strTrim).filter
    (fun line => line ≠ "" && !(strStartsWith line "#"))

/-- The per-line validation step of KeyManager.js:48-63: normalize the
key, construct the wallet (the `walletAddress` oracle), and on success
return the mutated account (normalized key, derived address); on failure
drop the line. -/
def mkAccountEntry (walletAddress : String → Option String)
    (a : String × String) : Option KMAccount :=
  let pk := normalizeKey a.1
  match walletAddress pk with
  | some addr => some ⟨pk, a.2, addr⟩
  | none => none

/-- Models `KeyManager.loadAccounts`.  `Except.error ()` models the thrown
error (the only throw site inside the function body is the missing-file
check; per-line wallet failures are logged and filtered out). -/
def loadAccounts (fileContent : Option String)
    (walletAddress : String → Option String) :
    Except Unit (List KMAccount) :=
  match fileContent with
  | none => Except.error ()
  | some data =>
    let lines := keptLines data
    let accounts := lines.enum.map (fun p =>
      (p.2, "Account " ++ toString (p.1 + 1)))
    Except.ok (accounts.filterMap (mkAccountEntry walletAddress))

/-! ## HttpClient rate limiter (src/utils/HttpClient.js:194-220)

`checkRateLimit` is modelled in a deterministic timing model: `Date.now()`
is the explicit `now` argument and `await delay(waitTime)` advances the
clock by exactly `waitTime` (the earliest moment the timer can fire).  The
recursion `return this.checkRateLimit()` is bounded by `fuel`; `none`
models fuel exhaustion and the theorems show the fuel used is adequate. -/

/-- State of one `checkRateLimit` call: the retained timestamp list (the
method reassigns `this.requestTimestamps`) and the clock value at which the
call returns (the admission time). -/
def checkRateLimit (rateLimit : Nat) (ts : List Nat) (now : Nat) :
    Nat → Option (List Nat × Nat)
  | 0 => none
  | fuel + 1 =>
    if rateLimit = 0 then
      -- `if (!this.options.rateLimit) return;` — falsy limit disables
      -- limiting entirely, with no timestamp recorded.
      some (ts, now)
    else
      let retained := ts.filter (fun t => now - t < 60000)
      if rateLimit ≤ retained.length then
        let oldestRequest := retained.headD 0
        let waitTime := max 1 (oldestRequest + 60000 - now)
        checkRateLimit rateLimit retained (now + waitTime) fuel
      else
        some (retained ++ [now], now)

/-! ## HttpClient request path (src/utils/HttpClient.js:244-533)

The CycleTLS transport is an oracle `transport : Nat → String → Except
String Nat` giving, for each attempt index and the headers format used on
that attempt, either a thrown error message or a response status.  The
random JA3 draw of `getRandomJa3Fingerprint` is the oracle `ja3Supply`,
indexed by retry number.  Request options model only the fields the
request loop reads (`url`, `headersFormat`, `maxRetries`, `retryDelay`);
`none` models an absent (`undefined`) property — in particular the
per-call `options` argument of `request` defaults to `{}`, which has no
`maxRetries`, and `prepareRequestOptions` never copies the client-level
`this.options.maxRetries` into it. -/

/-- The fields of a per-request options object that the request loop
reads.  `none` is JavaScript `undefined`. -/
structure ReqOptions where
  url : Option String
  headersFormat : Option String
  maxRetries : Option Nat
  retryDelay : Option Nat
deriving Repr, DecidableEq

/-- Models `{}`: the default for the `options` parameter of `request`. -/
def ReqOptions.empty : ReqOptions := ⟨none, none, none, none⟩

/-- Mutable client state touched by the request path. -/
structure HttpState where
  endpointHeadersFormat : List (String × String)
  ja3Fingerprint : String
deriving Repr, DecidableEq

/-- Models `urlParts[urlParts.length - 1]` after `url.split('/')`
(HttpClient.js:251-252 and 320-321). -/
def lastSplitSegment (u : String) : String :=
  ⟨(chSplit '/' u.data).getLastD []⟩

/-- The endpoint key used by `prepareRequestOptions` and
`handleRequestError`: `'default'` unless the options object carries a
truthy `url` property, in which case the last `/`-separated piece. -/
def optionsEndpointKey (options : ReqOptions) : String :=
  match options.url with
  | some u => if u = "" then "default" else lastSplitSegment u
  | none => "default"

/-- Models `HttpClient.getEndpointKey` (HttpClient.js:66-84).  The `try` branch
models `new URL(url).pathname` for `http(s)://` URLs (host stripped, query
and fragment excluded): the last non-empty path segment, `''` for an empty
path.  Other strings make `new URL` throw, landing in the `catch` branch:
last `/`-piece of the raw string with the query stripped. -/
def getEndpointKey (url : String) : String :=
  if strStartsWith url "https://" || strStartsWith url "http://" then
    let afterScheme :=
      if strStartsWith url "https://" then url.data.drop 8 else url.data.drop 7
    let beforeQuery := (chSplit '?' afterScheme).headD []
    let beforeHash := (chSplit '#' beforeQuery).headD []
    match chSplit '/' beforeHash with
    | [] => ""
    | _host :: pathSegs =>
      match (pathSegs.filter (fun l => l ≠ [])).getLast? with
      | some k => ⟨k⟩
      | none => ""
  else
    ⟨(chSplit '?' ((chSplit '/' url.data).getLastD [])).headD []⟩

/-- Models `HttpClient.getHeadersFormatForEndpoint` (HttpClient.js:91-101). -/
def getHeadersFormatForEndpoint (memory : List (String × String))
    (defaultHeadersFormat : String) (url : String) : String :=
  let endpointKey := getEndpointKey url
  if endpointKey ≠ "" then
    match objGet memory endpointKey with
    | some f => f
    | none => defaultHeadersFormat
  else defaultHeadersFormat

/-- Models `HttpClient.prepareRequestOptions` (HttpClient.js:244-300), restricted
to the fields the request loop later reads.  The headers
stringification/parsing, timeout defaulting and responseType handling
mutate fields no claim depends on and are omitted; crucially the function
never adds `maxRetries` or `retryDelay` to the options. -/
def prepareRequestOptions (memory : List (String × String))
    (defaultHeadersFormat : String) (options : ReqOptions) : ReqOptions :=
  let endpointKey := optionsEndpointKey options
  match (if endpointKey = "default" then none else objGet memory endpointKey) with
  | some f => { options with headersFormat := some f }
  | none =>
    match options.headersFormat with
    | some _ => options
    | none =>
      if endpointKey = "nonce" then { options with headersFormat := some "string" }
      else { options with headersFormat := some defaultHeadersFormat }

/-- The error-text test of `handleRequestError` (HttpClient.js:310-314). -/
def isHeadersFormatError (message : String) : Bool :=
  strContains message "Unmarshal Error" ||
  strContains message "cannot unmarshal object" ||
  strContains message "headers of type string"

/-- Models `HttpClient.handleRequestError` (HttpClient.js:308-352): on an
encoding-mismatch error text, flip the headers format remembered for the
endpoint key derived from `options.url` and return the options with the
new format; otherwise leave both untouched.  Returns the updated
`this.endpointHeadersFormat` alongside the (possibly) fixed options. -/
def handleRequestError (memory : List (String × String)) (message : String)
    (options : ReqOptions) : List (String × String) × ReqOptions :=
  if isHeadersFormatError message then
    let endpointKey := optionsEndpointKey options
    let newFormat := if options.headersFormat == some "string" then "object" else "string"
    (objSet memory endpointKey newFormat,
     { options with headersFormat := some newFormat })
  else (memory, options)

/-- Observable events of one `request` call. -/
inductive ReqEvent where
  /-- one transport invocation, with the headers format it used and the
  value of `retryCount` when it was issued -/
  | attempt (fmt : String) (retryCount : Nat)
  /-- Models `await delay(waitTime)` before a retry -/
  | sleep (ms : Nat)
  /-- the fingerprint redraw `this.options.ja3Fingerprint = ...` before a
  retry -/
  | newFingerprint (ja3 : String)
deriving Repr, DecidableEq

/-- Result of one `request` call: final client state, the event trace, and
either the response status or the thrown error message. -/
structure ReqOutcome where
  state : HttpState
  events : List ReqEvent
  result : Except String Nat
deriving Repr

/-- The `while (true)` loop of `HttpClient.request`
(HttpClient.js:377-532).  `headersFormat` is the loop-local variable
captured once before the loop and never reassigned inside it; the catch
block recomputes `fixedOptions` from the unchanged `requestOptions` on
every failure, and the retry guard is `retryCount < fixedOptions.maxRetries`
— a comparison with `undefined` (hence `false`) when the per-call options
carry no `maxRetries`.  `none` models fuel exhaustion only. -/
def requestLoop (transport : Nat → String → Except String Nat)
    (ja3Supply : Nat → String) (headersFormat : String)
    (requestOptions : ReqOptions) (st : HttpState) (retryCount : Nat)
    (events : List ReqEvent) : Nat → Option ReqOutcome
  | 0 => none
  | fuel + 1 =>
    let events := events ++ [ReqEvent.attempt headersFormat retryCount]
    match transport retryCount headersFormat with
    | Except.ok status => some ⟨st, events, Except.ok status⟩
    | Except.error msg =>
      let fixed := handleRequestError st.endpointHeadersFormat msg requestOptions
      let st1 : HttpState := { st with endpointHeadersFormat := fixed.1 }
      let fixedOptions := fixed.2
      let canRetry : Bool :=
        match fixedOptions.maxRetries with
        | some m => decide (retryCount < m)
        | none => false
      if canRetry then
        let rc := retryCount + 1
        -- `fixedOptions.retryDelay * 2^(retryCount-1)`; an undefined
        -- retryDelay makes the product NaN and `delay(NaN)` fires at once,
        -- modelled as 0.
        let waitTime := (fixedOptions.retryDelay.getD 0) * 2 ^ (rc - 1)
        let ja3 := ja3Supply rc
        requestLoop transport ja3Supply headersFormat requestOptions
          { st1 with ja3Fingerprint := ja3 } rc
          (events ++ [ReqEvent.sleep waitTime, ReqEvent.newFingerprint ja3]) fuel
      else
        some ⟨st1, events, Except.error msg⟩

/-- Models `HttpClient.request` (HttpClient.js:363-533), with the rate-limiter
and transport-initialisation awaits factored out (they do not touch the
state modelled here; the limiter is `checkRateLimit` above).  The fuel
`maxRetries + 1` bounds the loop: each iteration either returns or
increments `retryCount`, which the guard keeps `< maxRetries`. -/
def request (defaultHeadersFormat : String)
    (transport : Nat → String → Except String Nat) (ja3Supply : Nat → String)
    (url : String) (options : ReqOptions) (st : HttpState) : Option ReqOutcome :=
  let requestOptions := prepareRequestOptions st.endpointHeadersFormat
    defaultHeadersFormat options
  let headersFormat := getHeadersFormatForEndpoint st.endpointHeadersFormat
    defaultHeadersFormat url
  requestLoop transport ja3Supply headersFormat requestOptions st 0 []
    ((requestOptions.maxRetries.getD 0) + 1)

/-! ## Worker task runner (src/tasks/worker.js, reproduced in README.md)

The per-account runner.  A task handler invocation is resolved by the
environment oracle `beh : Nat → TaskOutcome` (indexed by position in the
task sequence); `TaskOutcome.fatal` is an error carrying the
`isCaptchaFatalError` marker.  Which code path a task name takes is fixed
by `executeTask`'s `switch` (README.md:770-822): `sign`/`createEvent` run
through `withErrorHandling`, the known `fractionAI:*` names run through
`handleFractionAITask` (which catches every error itself), and any other
name hits `default: throw`, landing in `executeTask`'s own catch block. -/

/-- Outcome of one task-handler invocation, decided by the environment. -/
inductive TaskOutcome where
  | ok
  | err
  /-- an error whose `isCaptchaFatalError` property is truthy -/
  | fatal
deriving Repr, DecidableEq

/-- Routing of a task name inside `executeTask`'s `switch`. -/
inductive TaskKind where
  | wrapped
  | fraction
  | throwing
deriving Repr, DecidableEq

/-- The `fractionAI:*` case labels of `executeTask` (README.md:778-818). -/
def fractionTaskNames : List String :=
  ["fractionAI:verify", "fractionAI:diagnoseApi", "fractionAI:getUserAgents",
   "fractionAI:checkAutomationStatus", "fractionAI:createAgent",
   "fractionAI:enableAutomatedMatchmaking",
   "fractionAI:disableAutomatedMatchmaking", "fractionAI:getProfile",
   "fractionAI:getAgents", "fractionAI:createMatch", "fractionAI:joinMatch",
   "fractionAI:checkMatchStatus", "fractionAI:getMatchResult",
   "fractionAI:claimRewards"]

/-- Which path `executeTask` routes a task name through. -/
def taskKind (name : String) : TaskKind :=
  if name == "sign" || name == "createEvent" then TaskKind.wrapped
  else if fractionTaskNames.contains name then TaskKind.fraction
  else TaskKind.throwing

/-- The configuration fields the runner reads.  A `0` in a numeric field
models a falsy (absent) configuration value wherever the code applies a
`||` default. -/
structure WorkerConfig where
  /-- config.errorHandling.maxConsecutiveErrors -/
  maxConsecutiveErrors : Nat
  /-- config.errorHandling.cooldownPeriod -/
  cooldownPeriod : Nat
  /-- config.tasks.maxRetries -/
  taskMaxRetries : Nat
  /-- config.tasks.initialRetryDelay -/
  initialRetryDelay : Nat
  /-- config.tasks.stopOnFailure -/
  stopOnFailure : Bool
deriving Repr, DecidableEq

/-- The fields of a task result object that the control flow reads:
`result.success` and `result.fatalError` (an absent `fatalError` is
`false`). -/
structure TResult where
  success : Bool
  fatalError : Bool
deriving Repr, DecidableEq

/-- Observable events of a run. -/
inductive WEvent where
  /-- a task attempt begins (top of `executeTask`'s `try`), recording the
  value of `this.consecutiveErrors` at that moment -/
  | attempt (name : String) (consecutiveErrors : Nat)
  /-- the circuit-breaker sleep `await delay(cooldownPeriod)` -/
  | cooldown (ms : Nat)
  /-- the retry wait at the top of `executeTask` -/
  | retrySleep (ms : Nat)
deriving Repr, DecidableEq

/-- Result of one `executeTask` (or `withErrorHandling`) call: the new
`this.consecutiveErrors`, the events it produced, and the returned task
result. -/
structure ExecResult where
  consecutiveErrors : Nat
  events : List WEvent
  result : TResult
deriving Repr, DecidableEq

/-- Models `Worker.withErrorHandling` (README.md:494-563): on success the
consecutive-error counter resets to 0; on failure it is incremented once,
and if it has reached `maxConsecutiveErrors` the runner sleeps
`cooldownPeriod || 300000` and then resets the counter to 0.  `ok` is
whether the wrapped `taskFn` returned rather than threw (a captcha-fatal
marker on the thrown error is not inspected here). -/
def withErrorHandling (cfg : WorkerConfig) (c : Nat) (ok : Bool) : ExecResult :=
  if ok then ⟨0, [], ⟨true, false⟩⟩
  else
    let c1 := c + 1
    if cfg.maxConsecutiveErrors ≤ c1 then
      let cooldownPeriod :=
        if cfg.cooldownPeriod = 0 then 300000 else cfg.cooldownPeriod
      ⟨0, [WEvent.cooldown cooldownPeriod], ⟨false, false⟩⟩
    else ⟨c1, [], ⟨false, false⟩⟩

/-- Models `Worker.handleFractionAITask` (README.md:684-752): every error
is caught internally; the returned object has `success: false` on failure
and additionally `fatalError: true` when the error carries the
captcha-fatal marker.  `this.consecutiveErrors` is never touched. -/
def handleFractionAITask (o : TaskOutcome) : TResult :=
  match o with
  | TaskOutcome.ok => ⟨true, false⟩
  | TaskOutcome.err => ⟨false, false⟩
  | TaskOutcome.fatal => ⟨false, true⟩

/-- Models `Worker.executeTask` (README.md:761-880).  `sign`/`createEvent`
return `withErrorHandling`'s result (those methods never throw, so the
catch block is not reached); known `fractionAI:*` names return
`handleFractionAITask`'s result (same); any other name throws at
`default:`, is caught, increments the counter (cooldown and reset when the
threshold is reached, reading `cooldownPeriod` directly), and is retried
up to `config.tasks.maxRetries || 3` times with delays
`initialRetryDelay || 2000` then doubling.  The structural `fuel` bounds
the retry recursion; callers pass `maxRetries + 1`, which the retry guard
`retryCount < maxRetries` makes sufficient, so the fuel-exhausted branch
(which returns the failure result without an attempt) is never reached
from `runTasks`. -/
def executeTask (cfg : WorkerConfig) (o : TaskOutcome) (name : String)
    (c retryCount retryDelay : Nat) : Nat → ExecResult
  | 0 => ⟨c, [], ⟨false, false⟩⟩
  | fuel + 1 =>
    let pre : List WEvent :=
      (if 0 < retryCount && 0 < retryDelay then [WEvent.retrySleep retryDelay] else [])
      ++ [WEvent.attempt name c]
    match taskKind name with
    | TaskKind.wrapped =>
      let r := withErrorHandling cfg c (o == TaskOutcome.ok)
      ⟨r.consecutiveErrors, pre ++ r.events, r.result⟩
    | TaskKind.fraction =>
      ⟨c, pre, handleFractionAITask o⟩
    | TaskKind.throwing =>
      let c1 := c + 1
      let hitBreaker := cfg.maxConsecutiveErrors ≤ c1
      let c2 := if hitBreaker then 0 else c1
      let cd : List WEvent :=
        if hitBreaker then [WEvent.cooldown cfg.cooldownPeriod] else []
      let maxRetries := if cfg.taskMaxRetries = 0 then 3 else cfg.taskMaxRetries
      if retryCount < maxRetries then
        let nextRetryDelay :=
          if retryDelay = 0 then
            (if cfg.initialRetryDelay = 0 then 2000 else cfg.initialRetryDelay)
          else retryDelay * 2
        let r := executeTask cfg o name c2 (retryCount + 1) nextRetryDelay fuel
        ⟨r.consecutiveErrors, pre ++ cd ++ r.events, r.result⟩
      else ⟨c2, pre ++ cd, ⟨false, false⟩⟩

/-- Running state of `executeAllTasks`: the counter, the local
`taskResults` object, the event trace, the number of loop iterations that
invoked `executeTask`, and `allTasksSuccessful`. -/
structure RunState where
  consecutiveErrors : Nat
  taskResults : List (String × TResult)
  events : List WEvent
  attempted : Nat
  success : Bool
deriving Repr, DecidableEq

/-- The state at the top of `executeAllTasks`. -/
def initialRunState : RunState := ⟨0, [], [], 0, true⟩

/-- The `for (const taskType of tasksToExecute)` loop of
`Worker.executeAllTasks` (README.md:898-928): run the task, store its
result under `taskResults[taskType]`, stop with `allTasksSuccessful =
false` on a fatal result, or on a failure when `stopOnFailure` is set;
otherwise continue with the next task.  The inter-task pacing delay
mutates none of the modelled state and is omitted. -/
def runTasks (cfg : WorkerConfig) (beh : Nat → TaskOutcome) :
    List String → Nat → RunState → RunState
  | [], _, st => st
  | name :: rest, i, st =>
    let fuel := (if cfg.taskMaxRetries = 0 then 3 else cfg.taskMaxRetries) + 1
    let r := executeTask cfg (beh i) name st.consecutiveErrors 0 0 fuel
    let st1 : RunState :=
      ⟨r.consecutiveErrors, objSet st.taskResults name r.result,
       st.events ++ r.events, st.attempted + 1, st.success⟩
    if r.result.fatalError then { st1 with success := false }
    else if !r.result.success && cfg.stopOnFailure then
      { st1 with success := false }
    else runTasks cfg beh rest (i + 1) st1

/-- Models `Worker.executeAllTasks` (README.md:886-969): the initial
stagger delay touches no modelled state; the returned summary's `success`
field is `allTasksSuccessful`. -/
def executeAllTasks (cfg : WorkerConfig) (tasks : List String)
    (beh : Nat → TaskOutcome) : RunState :=
  runTasks cfg beh tasks 0 initialRunState

/-! ## EthSigner (src/core/EthSigner.js, appended to config/index.js)

The ethers wallet and ECDSA recovery are an oracle `EthLib`:
`sign pk m` is `wallet.signMessage(m)` for the wallet of private key `pk`,
`recover m s` is `ethers.utils.verifyMessage(m, s)`, and `addressOf pk` is
`wallet.address`. -/

/-- The ethers surface consumed by EthSigner. -/
structure EthLib where
  sign : String → String → String
  recover : String → String → String
  addressOf : String → String

/-- Models `EthSigner.signMessage` (EthSigner section, config/index.js
lines 2231-2233). -/
def signMessage (lib : EthLib) (privateKey message : String) : String :=
  lib.sign privateKey message

/-- Models `EthSigner.verifySignature` (EthSigner section, config/index.js
lines 2241-2244): recover the address from the signature and compare with
`this.address`, both lower-cased. -/
def verifySignature (lib : EthLib) (privateKey message signature : String) :
    Bool :=
  strLower (lib.recover message signature) == strLower (lib.addressOf privateKey)

/-! ## Auxiliary concrete instances and derived predicates used by the
theorems -/

/-- Sample account with no proxy, for concrete instantiations. -/
def bareAccount : Account := ⟨"0xaaa", "Account 1", "0xAddrA", none, []⟩

/-- Sample account with an explicit proxy, for concrete instantiations. -/
def proxiedAccount : Account :=
  ⟨"0xbbb", "Account 2", "0xAddrB",
   some ⟨some "10.0.0.1", some 8080, none, none⟩, []⟩

/-- A toy signature scheme satisfying the recovery property, to witness
C9 concretely. -/
def toyEthLib : EthLib :=
  ⟨fun pk _ => pk, fun _ s => s, fun pk => pk⟩

/-- A transport whose every attempt fails with a network-level error. -/
def failingTransport : Nat → String → Except String Nat :=
  fun _ _ => Except.error "connect timeout"

/-- The random JA3 pool draw, as a deterministic oracle over draw index. -/
def ja3Oracle : Nat → String := fun n => "ja3-" ++ toString n

/-- A transport that accepts the flattened (`'string'`) headers mode and
rejects the structured (`'object'`) mode with the server's unmarshal
complaint — the exact scenario of the encoding self-correction claim. -/
def mismatchTransport : Nat → String → Except String Nat := fun _ fmt =>
  if fmt == "string" then Except.ok 200
  else Except.error "Unmarshal Error: expected headers of type string"

/-- Whether a task's single handler invocation yields `success: true`. -/
def taskSucceeds (name : String) (o : TaskOutcome) : Bool :=
  match taskKind name, o with
  | TaskKind.wrapped, TaskOutcome.ok => true
  | TaskKind.fraction, TaskOutcome.ok => true
  | _, _ => false

/-- Whether a task's result carries `fatalError: true`: only the
`fractionAI:*` path can produce it, from a captcha-fatal error. -/
def taskFatal (name : String) (o : TaskOutcome) : Bool :=
  match taskKind name, o with
  | TaskKind.fraction, TaskOutcome.fatal => true
  | _, _ => false


/-! ## Helper lemmas -/

/-! ## Association-object lemmas -/

theorem objGet_eq_none_of_not_mem {α : Type} (m : List (String × α))
    (k : String) (h : k ∉ m.map Prod.fst) : objGet m k = none := by
  have hf : m.find? (fun p => p.1 == k) = none := by
    rw [List.find?_eq_none]
    intro x hx hbeq
    exact h (List.mem_map.mpr ⟨x, hx, by simpa using hbeq⟩)
  simp [objGet, hf]

theorem objSet_of_not_mem {α : Type} (m : List (String × α)) (k : String)
    (v : α) (h : k ∉ m.map Prod.fst) : objSet m k v = m ++ [(k, v)] := by
  unfold objSet
  rw [if_neg]
  intro hc
  exact h (by simpa using hc)

theorem objGet_append_single_self {α : Type} (m : List (String × α))
    (k : String) (v : α) (h : k ∉ m.map Prod.fst) :
    objGet (m ++ [(k, v)]) k = some v := by
  have hf : m.find? (fun p => p.1 == k) = none := by
    rw [List.find?_eq_none]
    intro x hx hbeq
    exact h (List.mem_map.mpr ⟨x, hx, by simpa using hbeq⟩)
  simp [objGet, List.find?_append, hf]

/-! ## Worker lemmas -/

theorem withErrorHandling_result (cfg : WorkerConfig) (c : Nat) (ok : Bool) :
    (withErrorHandling cfg c ok).result = ⟨ok, false⟩ := by
  cases ok
  · simp [withErrorHandling, apply_ite]
  · rfl

theorem executeTask_result_throwing (cfg : WorkerConfig) (o : TaskOutcome)
    (name : String) (hk : taskKind name = TaskKind.throwing) :
    ∀ (fuel c rc rd : Nat),
      (executeTask cfg o name c rc rd fuel).result = ⟨false, false⟩ := by
  intro fuel
  induction fuel with
  | zero => intro c rc rd; rfl
  | succ fuel ih =>
    intro c rc rd
    simp only [executeTask, hk]
    split <;> split <;> first | exact ih _ _ _ | rfl

theorem executeTask_result (cfg : WorkerConfig) (o : TaskOutcome)
    (name : String) (c rc rd fuel : Nat) :
    (executeTask cfg o name c rc rd (fuel + 1)).result
      = ⟨taskSucceeds name o, taskFatal name o⟩ := by
  cases hk : taskKind name
  · cases o <;>
      simp [executeTask, hk, withErrorHandling_result, taskSucceeds, taskFatal]
  · cases o <;>
      simp [executeTask, hk, handleFractionAITask, taskSucceeds, taskFatal]
  · rw [executeTask_result_throwing cfg o name hk]
    cases o <;> simp [taskSucceeds, taskFatal, hk]


theorem withErrorHandling_counter_lt (cfg : WorkerConfig) (c : Nat) (ok : Bool)
    (h1 : 1 ≤ cfg.maxConsecutiveErrors) :
    (withErrorHandling cfg c ok).consecutiveErrors < cfg.maxConsecutiveErrors := by
  simp only [withErrorHandling]
  split_ifs <;>
    first
    | exact h1
    | (show c + 1 < cfg.maxConsecutiveErrors
       omega)

theorem withErrorHandling_events_cooldown (cfg : WorkerConfig) (c : Nat)
    (ok : Bool) :
    ∀ e ∈ (withErrorHandling cfg c ok).events, ∃ ms, e = WEvent.cooldown ms := by
  simp only [withErrorHandling]
  split_ifs <;> simp

theorem attempt_not_mem_pre (b : Bool) (rd : Nat) (n : String) (c' : Nat) :
    WEvent.attempt n c' ∉ (if b = true then [WEvent.retrySleep rd] else []) := by
  cases b <;> simp

theorem attempt_mem_pre_decomp {n : String} {c' : Nat} (b : Bool)
    (rd : Nat) (nm : String) (c : Nat) (tail : List WEvent)
    (h : WEvent.attempt n c' ∈
      (if b = true then [WEvent.retrySleep rd] else [])
        ++ ([WEvent.attempt nm c] ++ tail)) :
    (n = nm ∧ c' = c) ∨ WEvent.attempt n c' ∈ tail := by
  cases b <;> simp at h <;> tauto

theorem attempt_mem_cooldown_decomp {n : String} {c' : Nat} (p : Prop)
    [Decidable p] (ms : Nat) (tail : List WEvent)
    (h : WEvent.attempt n c' ∈
      (if p then [WEvent.cooldown ms] else []) ++ tail) :
    WEvent.attempt n c' ∈ tail := by
  by_cases hp : p
  · simp [hp] at h
    exact h
  · simpa [hp] using h

theorem attempt_not_mem_cooldown {n : String} {c' : Nat} (p : Prop)
    [Decidable p] (ms : Nat) :
    WEvent.attempt n c' ∉ (if p then [WEvent.cooldown ms] else []) := by
  by_cases hp : p <;> simp [hp]

theorem executeTask_counter_lt (cfg : WorkerConfig) (o : TaskOutcome)
    (name : String) (h1 : 1 ≤ cfg.maxConsecutiveErrors) :
    ∀ (fuel c rc rd : Nat), c < cfg.maxConsecutiveErrors →
      (executeTask cfg o name c rc rd fuel).consecutiveErrors
        < cfg.maxConsecutiveErrors := by
  intro fuel
  induction fuel with
  | zero => intro c rc rd hc; exact hc
  | succ fuel ih =>
    intro c rc rd hc
    cases hk : taskKind name
    · simp only [executeTask, hk]
      exact withErrorHandling_counter_lt cfg c (o == TaskOutcome.ok) h1
    · simp only [executeTask, hk]
      exact hc
    · simp only [executeTask, hk]
      split <;> split
      · exact ih _ _ _ (by split <;> omega)
      · show (if cfg.maxConsecutiveErrors ≤ c + 1 then 0 else c + 1)
          < cfg.maxConsecutiveErrors
        split <;> omega
      · exact ih _ _ _ (by split <;> omega)
      · show (if cfg.maxConsecutiveErrors ≤ c + 1 then 0 else c + 1)
          < cfg.maxConsecutiveErrors
        split <;> omega

theorem executeTask_attempt_counters (cfg : WorkerConfig) (o : TaskOutcome)
    (name : String) (h1 : 1 ≤ cfg.maxConsecutiveErrors) :
    ∀ (fuel c rc rd : Nat), c < cfg.maxConsecutiveErrors →
      ∀ n c', WEvent.attempt n c' ∈ (executeTask cfg o name c rc rd fuel).events →
        c' < cfg.maxConsecutiveErrors := by
  intro fuel
  induction fuel with
  | zero =>
    intro c rc rd hc n c' h
    simp [executeTask] at h
  | succ fuel ih =>
    intro c rc rd hc
    cases hk : taskKind name
    · simp only [executeTask, hk]
      intro n c' hmem
      simp only [List.append_assoc] at hmem
      rcases attempt_mem_pre_decomp _ rd name c _ hmem with ⟨_, hc'⟩ | h
      · subst hc'
        exact hc
      · obtain ⟨ms, hms⟩ :=
          withErrorHandling_events_cooldown cfg c (o == TaskOutcome.ok) _ h
        simp at hms
    · simp only [executeTask, hk]
      intro n c' hmem
      rcases List.mem_append.mp hmem with h | h
      · exact absurd h (attempt_not_mem_pre _ rd n c')
      · simp at h
        obtain ⟨_, hc'⟩ := h
        subst hc'
        exact hc
    · simp only [executeTask, hk]
      split <;> split
      all_goals intro n c' hmem
      all_goals simp only [List.append_assoc] at hmem
      all_goals
        rcases attempt_mem_pre_decomp _ rd name c _ hmem with ⟨_, hc'⟩ | h
      case _ => subst hc'; exact hc
      case _ =>
        have h2 := attempt_mem_cooldown_decomp _ cfg.cooldownPeriod _ h
        exact ih _ _ _ (by split <;> omega) n c' h2
      case _ => subst hc'; exact hc
      case _ =>
        exact absurd h (attempt_not_mem_cooldown _ cfg.cooldownPeriod)
      case _ => subst hc'; exact hc
      case _ =>
        have h2 := attempt_mem_cooldown_decomp _ cfg.cooldownPeriod _ h
        exact ih _ _ _ (by split <;> omega) n c' h2
      case _ => subst hc'; exact hc
      case _ =>
        exact absurd h (attempt_not_mem_cooldown _ cfg.cooldownPeriod)


theorem runTasks_attempt_counters (cfg : WorkerConfig) (beh : Nat → TaskOutcome)
    (h1 : 1 ≤ cfg.maxConsecutiveErrors) :
    ∀ (tasks : List String) (i : Nat) (st : RunState),
      st.consecutiveErrors < cfg.maxConsecutiveErrors →
      (∀ n c', WEvent.attempt n c' ∈ st.events → c' < cfg.maxConsecutiveErrors) →
      ∀ n c', WEvent.attempt n c' ∈ (runTasks cfg beh tasks i st).events →
        c' < cfg.maxConsecutiveErrors := by
  intro tasks
  induction tasks with
  | nil =>
    intro i st hc hev
    simpa [runTasks] using hev
  | cons name rest ih =>
    intro i st hc hev
    simp only [runTasks]
    set fuel := (if cfg.taskMaxRetries = 0 then 3 else cfg.taskMaxRetries) + 1
      with hfuel
    have hr1 := executeTask_counter_lt cfg (beh i) name h1
      fuel st.consecutiveErrors 0 0 hc
    have hr2 := executeTask_attempt_counters cfg (beh i) name h1
      fuel st.consecutiveErrors 0 0 hc
    have hev1 : ∀ n c', WEvent.attempt n c' ∈
        st.events ++ (executeTask cfg (beh i) name st.consecutiveErrors 0 0
          fuel).events →
        c' < cfg.maxConsecutiveErrors := by
      intro n c' h
      rcases List.mem_append.mp h with h | h
      · exact hev _ _ h
      · exact hr2 _ _ h
    split
    · exact hev1
    · split
      · exact hev1
      · exact ih (i + 1) _ hr1 hev1

theorem runTasks_keys (cfg : WorkerConfig) (beh : Nat → TaskOutcome) :
    ∀ (tasks : List String) (i : Nat) (st : RunState),
      tasks.Nodup →
      (∀ n ∈ st.taskResults.map Prod.fst, n ∉ tasks) →
      ∃ k, k ≤ tasks.length ∧
        (runTasks cfg beh tasks i st).attempted = st.attempted + k ∧
        (runTasks cfg beh tasks i st).taskResults.map Prod.fst
          = st.taskResults.map Prod.fst ++ tasks.take k := by
  intro tasks
  induction tasks with
  | nil =>
    intro i st _ _
    exact ⟨0, by simp, by simp [runTasks], by simp [runTasks]⟩
  | cons name rest ih =>
    intro i st hnd hdis
    have hname : name ∉ st.taskResults.map Prod.fst := by
      intro h
      exact hdis name h (List.mem_cons_self _ _)
    simp only [runTasks]
    set fuel := (if cfg.taskMaxRetries = 0 then 3 else cfg.taskMaxRetries) + 1
      with hfuel
    set r := executeTask cfg (beh i) name st.consecutiveErrors 0 0 fuel with hr
    have hobj : objSet st.taskResults name r.result
        = st.taskResults ++ [(name, r.result)] :=
      objSet_of_not_mem _ _ _ hname
    split
    · refine ⟨1, by simp only [List.length_cons]; omega, rfl, ?_⟩
      show (objSet st.taskResults name r.result).map Prod.fst
        = st.taskResults.map Prod.fst ++ (name :: rest).take 1
      rw [hobj]
      simp
    · split
      · refine ⟨1, by simp only [List.length_cons]; omega, rfl, ?_⟩
        show (objSet st.taskResults name r.result).map Prod.fst
          = st.taskResults.map Prod.fst ++ (name :: rest).take 1
        rw [hobj]
        simp
      · have hdis1 : ∀ n ∈ (objSet st.taskResults name r.result).map Prod.fst,
            n ∉ rest := by
          rw [hobj]
          intro n hn
          rw [List.map_append] at hn
          rcases List.mem_append.mp hn with h | h
          · intro hmem
            exact hdis n h (List.mem_cons_of_mem _ hmem)
          · have hn2 : n = name := by simpa using h
            subst hn2
            exact (List.nodup_cons.mp hnd).1
        obtain ⟨k, hk, ha, hkeys⟩ := ih (i + 1)
          ⟨r.consecutiveErrors, objSet st.taskResults name r.result,
           st.events ++ r.events, st.attempted + 1, st.success⟩
          (List.nodup_cons.mp hnd).2 hdis1
        refine ⟨k + 1, by simp only [List.length_cons]; omega, ?_, ?_⟩
        · rw [ha]
          show st.attempted + 1 + k = st.attempted + (k + 1)
          omega
        · rw [hkeys]
          show (objSet st.taskResults name r.result).map Prod.fst ++ rest.take k
            = st.taskResults.map Prod.fst ++ (name :: rest).take (k + 1)
          rw [hobj, List.take_succ_cons]
          simp

theorem runTasks_fatal (cfg : WorkerConfig) (beh : Nat → TaskOutcome) :
    ∀ (tasks : List String) (i : Nat) (st : RunState) (k : Nat) (nk : String),
      tasks[k]? = some nk →
      taskKind nk = TaskKind.fraction →
      beh (i + k) = TaskOutcome.fatal →
      (∀ j nj, j < k → tasks[j]? = some nj →
        taskFatal nj (beh (i + j)) = false ∧
        (cfg.stopOnFailure = true → taskSucceeds nj (beh (i + j)) = true)) →
      tasks.Nodup →
      (∀ n ∈ st.taskResults.map Prod.fst, n ∉ tasks) →
      (runTasks cfg beh tasks i st).success = false ∧
      (runTasks cfg beh tasks i st).attempted = st.attempted + (k + 1) ∧
      objGet (runTasks cfg beh tasks i st).taskResults nk = some ⟨false, true⟩ ∧
      (∀ j nj, k < j → tasks[j]? = some nj →
        objGet (runTasks cfg beh tasks i st).taskResults nj = none) := by
  intro tasks
  induction tasks with
  | nil =>
    intro i st k nk hget
    simp at hget
  | cons name rest ih =>
    intro i st k nk hget hkind hbeh hprev hnd hdis
    have hname : name ∉ st.taskResults.map Prod.fst := fun h =>
      hdis name h (List.mem_cons_self _ _)
    simp only [runTasks]
    set fuel0 := (if cfg.taskMaxRetries = 0 then 3 else cfg.taskMaxRetries)
      with hf0
    set r := executeTask cfg (beh i) name st.consecutiveErrors 0 0 (fuel0 + 1)
      with hrdef
    have hres : r.result = ⟨taskSucceeds name (beh i), taskFatal name (beh i)⟩ :=
      executeTask_result cfg (beh i) name st.consecutiveErrors 0 0 fuel0
    have hobj : objSet st.taskResults name r.result
        = st.taskResults ++ [(name, r.result)] :=
      objSet_of_not_mem _ _ _ hname
    cases k with
    | zero =>
      have hnk : name = nk := by simpa using hget
      subst hnk
      rw [Nat.add_zero] at hbeh
      have hfat : r.result.fatalError = true := by
        rw [hres]
        simp [taskFatal, hkind, hbeh]
      rw [if_pos hfat]
      refine ⟨rfl, by simp, ?_, ?_⟩
      · show objGet (objSet st.taskResults name r.result) name = some ⟨false, true⟩
        rw [hobj, objGet_append_single_self _ _ _ hname, hres]
        have hsucc : taskSucceeds name (beh i) = false := by
          simp [taskSucceeds, hkind, hbeh]
        have hfat2 : taskFatal name (beh i) = true := by
          simp [taskFatal, hkind, hbeh]
        rw [hsucc, hfat2]
      · intro j nj hj hgetj
        cases j with
        | zero => omega
        | succ j2 =>
          rw [List.getElem?_cons_succ] at hgetj
          have hmem : nj ∈ rest := by
            rcases List.getElem?_eq_some.mp hgetj with ⟨h2, h3⟩
            exact h3 ▸ List.getElem_mem h2
          have hne : nj ≠ name := by
            intro he
            subst he
            exact (List.nodup_cons.mp hnd).1 hmem
          show objGet (objSet st.taskResults name r.result) nj = none
          rw [hobj]
          apply objGet_eq_none_of_not_mem
          rw [List.map_append]
          intro hc
          rcases List.mem_append.mp hc with h | h
          · exact hdis nj h (List.mem_cons_of_mem _ hmem)
          · exact hne (by simpa using h)
    | succ k2 =>
      have h0 := hprev 0 name (by omega) (by simp)
      rw [Nat.add_zero] at h0
      have hfatf : r.result.fatalError = false := by
        rw [hres]
        exact h0.1
      rw [if_neg (show ¬ r.result.fatalError = true by simp [hfatf])]
      have hcond : (!r.result.success && cfg.stopOnFailure) = false := by
        cases hstop : cfg.stopOnFailure
        · simp
        · have hs := h0.2 hstop
          rw [hres]
          simp [hs]
      rw [if_neg (show ¬ (!r.result.success && cfg.stopOnFailure) = true by
        simp [hcond])]
      have hdis1 : ∀ n ∈ (objSet st.taskResults name r.result).map Prod.fst,
          n ∉ rest := by
        rw [hobj]
        intro n hn
        rw [List.map_append] at hn
        rcases List.mem_append.mp hn with h | h
        · intro hmem
          exact hdis n h (List.mem_cons_of_mem _ hmem)
        · have hn2 : n = name := by simpa using h
          subst hn2
          exact (List.nodup_cons.mp hnd).1
      have hget2 : rest[k2]? = some nk := by
        rw [List.getElem?_cons_succ] at hget
        exact hget
      have hbeh2 : beh ((i + 1) + k2) = TaskOutcome.fatal := by
        have heq : (i + 1) + k2 = i + (k2 + 1) := by omega
        rw [heq]
        exact hbeh
      have hprev2 : ∀ j nj, j < k2 → rest[j]? = some nj →
          taskFatal nj (beh ((i + 1) + j)) = false ∧
          (cfg.stopOnFailure = true → taskSucceeds nj (beh ((i + 1) + j)) = true) := by
        intro j nj hj hg
        have heq : (i + 1) + j = i + (j + 1) := by omega
        rw [heq]
        refine hprev (j + 1) nj (by omega) ?_
        rw [List.getElem?_cons_succ]
        exact hg
      obtain ⟨ha, hb, hc, hd⟩ := ih (i + 1)
        ⟨r.consecutiveErrors, objSet st.taskResults name r.result,
         st.events ++ r.events, st.attempted + 1, st.success⟩
        k2 nk hget2 hkind hbeh2 hprev2 (List.nodup_cons.mp hnd).2 hdis1
      refine ⟨ha, ?_, hc, ?_⟩
      · rw [hb]
        show st.attempted + 1 + (k2 + 1) = st.attempted + (k2 + 1 + 1)
        omega
      · intro j nj hj hg
        cases j with
        | zero => omega
        | succ j2 =>
          rw [List.getElem?_cons_succ] at hg
          exact hd j2 nj (by omega) hg


theorem normalizeKey_startsWith (pk : String) :
    strStartsWith (normalizeKey pk) "0x" = true := by
  unfold normalizeKey
  split
  · assumption
  · show ("0x".data.isPrefixOf ("0x" ++ pk).data) = true
    rw [String.data_append]
    simp [List.isPrefixOf_iff_prefix]

theorem kmBuild_length (w : String → Option String) :
    ∀ (lines : List String) (n : Nat),
      (((List.enumFrom n lines).map
        (fun p => (p.2, "Account " ++ toString (p.1 + 1)))).filterMap
          (mkAccountEntry w)).length
        = lines.countP (fun line => (w (normalizeKey line)).isSome) := by
  intro lines
  induction lines with
  | nil => intro n; rfl
  | cons l rest ih =>
    intro n
    cases hw : w (normalizeKey l) with
    | none =>
      simp only [List.enumFrom, List.map_cons, List.filterMap_cons,
        mkAccountEntry, hw, List.countP_cons]
      simpa [hw] using ih (n + 1)
    | some addr =>
      simp only [List.enumFrom, List.map_cons, List.filterMap_cons,
        mkAccountEntry, hw, List.countP_cons]
      simpa [hw] using ih (n + 1)

theorem kmBuild_mem (w : String → Option String) :
    ∀ (lines : List String) (n : Nat) (acc : KMAccount),
      acc ∈ ((List.enumFrom n lines).map
        (fun p => (p.2, "Account " ++ toString (p.1 + 1)))).filterMap
          (mkAccountEntry w) →
      strStartsWith acc.privateKey "0x" = true ∧
      w acc.privateKey = some acc.address ∧
      ∃ line ∈ lines, acc.privateKey = normalizeKey line := by
  intro lines
  induction lines with
  | nil =>
    intro n acc hacc
    simp at hacc
  | cons l rest ih =>
    intro n acc hacc
    cases hw : w (normalizeKey l) with
    | none =>
      simp only [List.enumFrom, List.map_cons, List.filterMap_cons,
        mkAccountEntry, hw] at hacc
      obtain ⟨h1, h2, line, h3, h4⟩ := ih (n + 1) acc hacc
      exact ⟨h1, h2, line, List.mem_cons_of_mem _ h3, h4⟩
    | some addr =>
      simp only [List.enumFrom, List.map_cons, List.filterMap_cons,
        mkAccountEntry, hw] at hacc
      rcases List.mem_cons.mp hacc with h | h
      · subst h
        exact ⟨normalizeKey_startsWith l, hw, l, List.mem_cons_self _ _, rfl⟩
      · obtain ⟨h1, h2, line, h3, h4⟩ := ih (n + 1) acc h
        exact ⟨h1, h2, line, List.mem_cons_of_mem _ h3, h4⟩
/-! ## Claim C1: retry exhaustion -/

/-- C1, code bug: the claim says a client constructed with
`maxRetries = 3` attempts a persistently failing request 4 times, waiting
`retryDelay * 2^(n-1)` and redrawing the fingerprint before each retry.
The retry guard, however, reads `fixedOptions.maxRetries` — a field of the
per-call `options` argument (default `{}`), which `prepareRequestOptions`
never populates from the client-level `this.options` — so
`retryCount < undefined` is `false` and the very first transport error
propagates: one attempt, no backoff wait, no fingerprint redraw, no matter
what the client was configured with (the first conjunct; the model's
`request` has no client `maxRetries` input at all because
`HttpClient.request` never reads `this.options.maxRetries`).  The retry
machinery the claim describes is reachable only by smuggling `maxRetries`
and `retryDelay` into the per-call options (the second conjunct: 4
attempts, waits 2000/4000/8000, fresh fingerprint before each retry). -/
theorem C1_request_retries_ignore_client_config :
    (request "object" failingTransport ja3Oracle
        "https://dapp-backend.fractionai.xyz/api3/auth/nonce"
        ReqOptions.empty ⟨[], "ja3-0"⟩ =
      some ⟨⟨[], "ja3-0"⟩, [ReqEvent.attempt "object" 0],
            Except.error "connect timeout"⟩) ∧
    (request "object" failingTransport ja3Oracle
        "https://dapp-backend.fractionai.xyz/api3/auth/nonce"
        ⟨none, none, some 3, some 2000⟩ ⟨[], "ja3-0"⟩ =
      some ⟨⟨[], "ja3-3"⟩,
            [ReqEvent.attempt "object" 0,
             ReqEvent.sleep 2000, ReqEvent.newFingerprint "ja3-1",
             ReqEvent.attempt "object" 1,
             ReqEvent.sleep 4000, ReqEvent.newFingerprint "ja3-2",
             ReqEvent.attempt "object" 2,
             ReqEvent.sleep 8000, ReqEvent.newFingerprint "ja3-3",
             ReqEvent.attempt "object" 3],
            Except.error "connect timeout"⟩) :=
  ⟨rfl, rfl⟩

/-! ## Claim C2: encoding self-correction -/

/-- C2, code bug: against a transport that rejects `'object'` headers and
accepts `'string'` ones, the claim promises the first request to endpoint
`agents` succeeds within 2 attempts and a second request succeeds at once.
In the code, (1) the first request fails outright after a single attempt:
`handleRequestError` is invoked, but it keys the flipped format under
`'default'` because it reads the endpoint from `options.url`, a property
the per-call options never carry, and the retry guard compares with the
absent per-call `maxRetries`; (2) a second request on the resulting state
still sends `'object'` (the `'default'` memory entry is never consulted
for endpoint key `agents`) and fails identically; (3) even with per-call
retries enabled the loop re-sends `'object'` on every attempt, because the
loop-local `headersFormat` is never rebuilt from the flipped options; and
(4) the transport would have accepted the flattened mode, so the failures
are the client's own. -/
theorem C2_encoding_flip_never_applied :
    (request "object" mismatchTransport ja3Oracle
        "https://dapp-backend.fractionai.xyz/api3/agents"
        ReqOptions.empty ⟨[], "ja3-0"⟩ =
      some ⟨⟨[("default", "string")], "ja3-0"⟩,
            [ReqEvent.attempt "object" 0],
            Except.error "Unmarshal Error: expected headers of type string"⟩) ∧
    (request "object" mismatchTransport ja3Oracle
        "https://dapp-backend.fractionai.xyz/api3/agents"
        ReqOptions.empty ⟨[("default", "string")], "ja3-0"⟩ =
      some ⟨⟨[("default", "string")], "ja3-0"⟩,
            [ReqEvent.attempt "object" 0],
            Except.error "Unmarshal Error: expected headers of type string"⟩) ∧
    ((request "object" mismatchTransport ja3Oracle
        "https://dapp-backend.fractionai.xyz/api3/agents"
        ⟨none, none, some 3, some 2000⟩ ⟨[], "ja3-0"⟩).map
          (fun out => (out.events.countP (fun e =>
            match e with
            | ReqEvent.attempt "object" _ => true
            | _ => false), out.result.isOk)) = some (4, false)) ∧
    (mismatchTransport 0 "string" = Except.ok 200) :=
  ⟨rfl, rfl, rfl, rfl⟩

/-! ## Claim C3: circuit breaker -/

/-- C3 counterexample: a run of three `fractionAI:*` tasks that all fail
(non-fatally) under `maxConsecutiveErrors = 3` attempts and records all
three failures, yet performs no cooldown sleep and leaves the
consecutive-error counter at 0 throughout: `handleFractionAITask` swallows
the errors and returns plain failure results, which never touch the
counter — refuting "after exactly maxConsecutiveErrors consecutive task
failures it sleeps at least cooldownPeriod". -/
theorem C3_fraction_failures_bypass_breaker :
    let run := executeAllTasks ⟨3, 1000, 3, 2000, false⟩
      ["fractionAI:createMatch", "fractionAI:joinMatch",
       "fractionAI:checkMatchStatus"] (fun _ => TaskOutcome.err)
    run.attempted = 3 ∧
    run.taskResults.countP (fun p => !p.2.success) = 3 ∧
    run.events.countP (fun e =>
      match e with
      | WEvent.cooldown _ => true
      | _ => false) = 0 ∧
    run.consecutiveErrors = 0 := by
  decide

/-- C3 amended (the counter discipline applies to the tasks whose
failures are signalled as exceptions, i.e. the `withErrorHandling` path of
`sign`/`createEvent` and `executeTask`'s own catch block; `fractionAI:*`
failures bypass the counter entirely): (1) across any whole run, every
task attempt begins with the consecutive-error counter strictly below
`maxConsecutiveErrors` — the runner never starts an attempt at or above
the threshold, because reaching it triggers the cooldown-and-reset before
the next attempt; (2) a success resets the counter to 0; (3) a failure
below the threshold increments it by exactly one with no sleep; (4) the
failure that reaches exactly `maxConsecutiveErrors` sleeps at least
`cooldownPeriod` (the `|| 300000` default applies when it is falsy) and
leaves the counter at 0. -/
theorem C3_breaker_discipline (cfg : WorkerConfig) (tasks : List String)
    (beh : Nat → TaskOutcome) (h1 : 1 ≤ cfg.maxConsecutiveErrors) :
    (∀ n c, WEvent.attempt n c ∈ (executeAllTasks cfg tasks beh).events →
        c < cfg.maxConsecutiveErrors) ∧
    (∀ c, (withErrorHandling cfg c true).consecutiveErrors = 0) ∧
    (∀ c, c + 1 < cfg.maxConsecutiveErrors →
        (withErrorHandling cfg c false).consecutiveErrors = c + 1 ∧
        (withErrorHandling cfg c false).events = []) ∧
    (∀ c, c + 1 = cfg.maxConsecutiveErrors →
        (withErrorHandling cfg c false).consecutiveErrors = 0 ∧
        ∃ ms, cfg.cooldownPeriod ≤ ms ∧
          (withErrorHandling cfg c false).events = [WEvent.cooldown ms]) := by
  refine ⟨?_, ?_, ?_, ?_⟩
  · intro n c h
    refine runTasks_attempt_counters cfg beh h1 tasks 0 initialRunState
      (by simpa [initialRunState] using h1) ?_ n c h
    intro n' c' h'
    simp [initialRunState] at h'
  · intro c
    rfl
  · intro c hlt
    have hn : ¬ cfg.maxConsecutiveErrors ≤ c + 1 := by omega
    simp [withErrorHandling, hn]
  · intro c heq
    have hyes : cfg.maxConsecutiveErrors ≤ c + 1 := by omega
    refine ⟨by simp [withErrorHandling, hyes], ?_⟩
    refine ⟨if cfg.cooldownPeriod = 0 then 300000 else cfg.cooldownPeriod,
      ?_, by simp [withErrorHandling, hyes]⟩
    split <;> omega

/-- Witness for C3 amended at a concrete configuration and run. -/
theorem C3_breaker_discipline_witness :
    (∀ n c, WEvent.attempt n c ∈
        (executeAllTasks ⟨2, 500, 3, 2000, false⟩ ["sign", "sign"]
          (fun _ => TaskOutcome.err)).events → c < 2) ∧
    (∀ c, (withErrorHandling ⟨2, 500, 3, 2000, false⟩ c true).consecutiveErrors = 0) ∧
    (∀ c, c + 1 < 2 →
        (withErrorHandling ⟨2, 500, 3, 2000, false⟩ c false).consecutiveErrors = c + 1 ∧
        (withErrorHandling ⟨2, 500, 3, 2000, false⟩ c false).events = []) ∧
    (∀ c, c + 1 = 2 →
        (withErrorHandling ⟨2, 500, 3, 2000, false⟩ c false).consecutiveErrors = 0 ∧
        ∃ ms, 500 ≤ ms ∧
          (withErrorHandling ⟨2, 500, 3, 2000, false⟩ c false).events
            = [WEvent.cooldown ms]) :=
  C3_breaker_discipline ⟨2, 500, 3, 2000, false⟩ ["sign", "sign"]
    (fun _ => TaskOutcome.err) (by decide)

/-! ## Claim C4: one result entry per attempted task -/

/-- C4 counterexample: the results map is keyed by task name, so a
sequence with a duplicated name (`["sign", "sign"]`, both attempted and
successful) records only one entry for two attempted tasks — refuting
"exactly one entry per task attempted". -/
theorem C4_duplicate_task_names_collapse_entries :
    let run := executeAllTasks ⟨5, 300000, 3, 2000, false⟩ ["sign", "sign"]
      (fun _ => TaskOutcome.ok)
    run.attempted = 2 ∧ run.taskResults.length = 1 := by
  decide

/-- C4 amended (restricted to sequences of pairwise-distinct task names):
the recorded result map has exactly one entry per attempted task, its
keys are the attempted prefix of the task sequence in order, and the
number of entries never exceeds the sequence length. -/
theorem C4_results_one_per_attempt (cfg : WorkerConfig) (tasks : List String)
    (beh : Nat → TaskOutcome) (hnd : tasks.Nodup) :
    (executeAllTasks cfg tasks beh).taskResults.map Prod.fst
      = tasks.take (executeAllTasks cfg tasks beh).attempted ∧
    (executeAllTasks cfg tasks beh).taskResults.length
      = (executeAllTasks cfg tasks beh).attempted ∧
    (executeAllTasks cfg tasks beh).attempted ≤ tasks.length := by
  obtain ⟨k, hk, ha, hkeys⟩ := runTasks_keys cfg beh tasks 0 initialRunState hnd
    (by simp [initialRunState])
  have ha2 : (executeAllTasks cfg tasks beh).attempted = k := by
    simpa [executeAllTasks, initialRunState] using ha
  have hkeys2 : (executeAllTasks cfg tasks beh).taskResults.map Prod.fst
      = tasks.take k := by
    simpa [executeAllTasks, initialRunState] using hkeys
  have hlen : (executeAllTasks cfg tasks beh).taskResults.length = k := by
    have h2 := congrArg List.length hkeys2
    simpa [List.length_take, Nat.min_eq_left hk] using h2
  refine ⟨?_, ?_, ?_⟩
  · rw [ha2, hkeys2]
  · rw [hlen, ha2]
  · rw [ha2]
    exact hk

/-- Witness for C4 amended on a concrete two-task run. -/
theorem C4_results_one_per_attempt_witness :
    (executeAllTasks ⟨5, 300000, 3, 2000, false⟩
        ["sign", "fractionAI:createMatch"] (fun _ => TaskOutcome.ok)).taskResults.map
          Prod.fst
      = ["sign", "fractionAI:createMatch"].take
          (executeAllTasks ⟨5, 300000, 3, 2000, false⟩
            ["sign", "fractionAI:createMatch"] (fun _ => TaskOutcome.ok)).attempted ∧
    (executeAllTasks ⟨5, 300000, 3, 2000, false⟩
        ["sign", "fractionAI:createMatch"] (fun _ => TaskOutcome.ok)).taskResults.length
      = (executeAllTasks ⟨5, 300000, 3, 2000, false⟩
          ["sign", "fractionAI:createMatch"] (fun _ => TaskOutcome.ok)).attempted ∧
    (executeAllTasks ⟨5, 300000, 3, 2000, false⟩
        ["sign", "fractionAI:createMatch"] (fun _ => TaskOutcome.ok)).attempted
      ≤ ["sign", "fractionAI:createMatch"].length :=
  C4_results_one_per_attempt ⟨5, 300000, 3, 2000, false⟩
    ["sign", "fractionAI:createMatch"] (fun _ => TaskOutcome.ok) (by decide)

/-! ## Claim C5: rate limiter -/

/-- C5 counterexample: with limit `R = 1` and one admission at time 1000,
the next `checkRateLimit` call at time 2000 returns at time 61000, when
the prior timestamp is exactly 60000 ms old — not *more than* 60 seconds
old as the claim words it.  The window filter `now - timestamp < 60000`
ages a timestamp out at exactly 60 seconds. -/
theorem C5_returns_at_exact_window_boundary :
    checkRateLimit 1 [1000] 2000 2 = some ([61000], 61000) ∧
    ¬ (60000 < 61000 - 1000) := by
  exact ⟨rfl, by decide⟩

/-- C5 amended ("more than 60 seconds old" becomes "at least 60 seconds
old, i.e. aged out of the 60-second window"): for a call made at `now`
with prior timestamps `ts` (at most `R` of them — the push-only-under-
capacity discipline of the method keeps the list no longer than `R`), the
call returns at a time `now2` such that: every retained timestamp,
including the new admission, is within the window at `now2`; the prior
timestamps still within the window at `now2` number fewer than `R` (the
capacity is re-checked at return time, not assumed); and if the window was
full at call time, some prior timestamp has aged out — is at least 60
seconds old — by `now2`.  Fuel 2 suffices: one wait always frees the
window in the deterministic timing model. -/
theorem C5_admission_blocks_until_ageout (R : Nat) (ts : List Nat)
    (now : Nat) (hR : 1 ≤ R) (hlen : ts.length ≤ R) :
    ∃ ts2 now2, checkRateLimit R ts now 2 = some (ts2, now2) ∧
      now ≤ now2 ∧
      (∀ t ∈ ts2, now2 - t < 60000) ∧
      (ts.filter (fun t => now2 - t < 60000)).length < R ∧
      (R ≤ (ts.filter (fun t => now - t < 60000)).length →
        ∃ t ∈ ts, t + 60000 ≤ now2) := by
  have hR0 : R ≠ 0 := by omega
  by_cases hblock : R ≤ (ts.filter (fun t => now - t < 60000)).length
  · -- window full: one wait, then the re-check succeeds
    have hne : ts.filter (fun t => now - t < 60000) ≠ [] := by
      intro hnil
      rw [hnil] at hblock
      simp at hblock
      omega
    obtain ⟨oldest, tail, htl⟩ := List.exists_cons_of_ne_nil hne
    have holdmem : oldest ∈ ts.filter (fun t => now - t < 60000) := by
      rw [htl]; exact List.mem_cons_self _ _
    have holdts : oldest ∈ ts := (List.mem_filter.mp holdmem).1
    have holdwin : now - oldest < 60000 := by
      have := (List.mem_filter.mp holdmem).2
      simpa using this
    have hwait : now + max 1 (oldest + 60000 - now) = oldest + 60000 := by
      omega
    have hlen2 : (tail.filter
        (fun t => (oldest + 60000) - t < 60000)).length < R := by
      have h1 : tail.length + 1 = (ts.filter (fun t => now - t < 60000)).length := by
        rw [htl]; simp
      have h2 : (ts.filter (fun t => now - t < 60000)).length ≤ ts.length :=
        List.length_filter_le _ _
      have h3 := List.length_filter_le (fun t => (oldest + 60000) - t < 60000) tail
      omega
    have hfilter2 : (ts.filter (fun t => now - t < 60000)).filter
        (fun t => (oldest + 60000) - t < 60000)
        = tail.filter (fun t => (oldest + 60000) - t < 60000) := by
      rw [htl]
      have : ((oldest + 60000) - oldest < 60000) = False := by simp
      simp [List.filter_cons, this]
    have hhead : (ts.filter (fun t => now - t < 60000)).headD 0 = oldest := by
      rw [htl]; rfl
    refine ⟨tail.filter (fun t => (oldest + 60000) - t < 60000) ++ [oldest + 60000],
      oldest + 60000, ?_, by omega, ?_, ?_, ?_⟩
    · show checkRateLimit R ts now 2 = _
      simp only [checkRateLimit]
      rw [hhead, hwait, hfilter2]
      rw [if_neg hR0, if_pos hblock, if_neg hR0,
        if_neg (Nat.not_le.mpr hlen2)]
    · intro t ht
      rcases List.mem_append.mp ht with h | h
      · have := (List.mem_filter.mp h).2
        simpa using this
      · have : t = oldest + 60000 := by simpa using h
        omega
    · -- the prior list re-filtered at the return time is under capacity
      have hcomm : ts.filter (fun t => (oldest + 60000) - t < 60000)
          = (ts.filter (fun t => now - t < 60000)).filter
              (fun t => (oldest + 60000) - t < 60000) := by
        rw [List.filter_filter]
        apply List.filter_congr
        intro t _
        by_cases hp : (oldest + 60000) - t < 60000
        · have hq : now - t < 60000 := by omega
          simp [hp, hq]
        · simp [hp]
      rw [hcomm, hfilter2]
      exact hlen2
    · intro _
      exact ⟨oldest, holdts, by omega⟩
  · -- window not full: immediate admission at `now`
    refine ⟨ts.filter (fun t => now - t < 60000) ++ [now], now, ?_,
      le_refl _, ?_, by omega, fun hcontra => absurd hcontra hblock⟩
    · simp only [checkRateLimit]
      simp [hR0, hblock]
    · intro t ht
      rcases List.mem_append.mp ht with h | h
      · have := (List.mem_filter.mp h).2
        simpa using this
      · have : t = now := by simpa using h
        omega

/-- Witness for C5 amended at `R = 1`, one in-window timestamp. -/
theorem C5_admission_blocks_until_ageout_witness :
    ∃ ts2 now2, checkRateLimit 1 [1000] 2000 2 = some (ts2, now2) ∧
      2000 ≤ now2 ∧
      (∀ t ∈ ts2, now2 - t < 60000) ∧
      ([1000].filter (fun t => now2 - t < 60000)).length < 1 ∧
      (1 ≤ ([1000].filter (fun t => 2000 - t < 60000)).length →
        ∃ t ∈ [1000], t + 60000 ≤ now2) :=
  C5_admission_blocks_until_ageout 1 [1000] 2000 (by decide) (by decide)

/-! ## Claim C6: fatal captcha abort -/

/-- C6 counterexample: with the sequence `["sign", "fractionAI:createMatch",
"sign"]` and a fatal captcha error on task 2, the run halts (task 3 is
never attempted, `attempted = 2`, summary success is false) — but the
never-attempted task 3 DOES have a result entry under its name `"sign"`,
inherited from task 1 through the name-keyed map, refuting "tasks k+1..N
… have no result entry" as stated. -/
theorem C6_duplicate_name_entry_survives_fatal :
    let run := executeAllTasks ⟨5, 300000, 3, 2000, false⟩
      ["sign", "fractionAI:createMatch", "sign"]
      (fun i => if i = 1 then TaskOutcome.fatal else TaskOutcome.ok)
    run.attempted = 2 ∧ run.success = false ∧
    (objGet run.taskResults "sign").isSome = true := by
  decide

/-- C6 amended (for pairwise-distinct task names): if the handler signals
a fatal captcha error on task k+1 of N (position k, a `fractionAI:*` task
— the only path that can mark `fatalError`) and the run reaches it, the
runner halts immediately regardless of `stopOnFailure`: exactly k+1 tasks
are attempted, the summary reports `success = false`, the failing task's
entry carries the fatal flag, and no later task has a result entry. -/
theorem C6_fatal_aborts_immediately (cfg : WorkerConfig) (tasks : List String)
    (beh : Nat → TaskOutcome) (k : Nat) (nk : String)
    (hget : tasks[k]? = some nk)
    (hkind : taskKind nk = TaskKind.fraction)
    (hbeh : beh k = TaskOutcome.fatal)
    (hprev : ∀ j nj, j < k → tasks[j]? = some nj →
      taskFatal nj (beh j) = false ∧
      (cfg.stopOnFailure = true → taskSucceeds nj (beh j) = true))
    (hnd : tasks.Nodup) :
    (executeAllTasks cfg tasks beh).success = false ∧
    (executeAllTasks cfg tasks beh).attempted = k + 1 ∧
    objGet (executeAllTasks cfg tasks beh).taskResults nk = some ⟨false, true⟩ ∧
    (∀ j nj, k < j → tasks[j]? = some nj →
      objGet (executeAllTasks cfg tasks beh).taskResults nj = none) := by
  obtain ⟨h1, h2, h3, h4⟩ := runTasks_fatal cfg beh tasks 0 initialRunState k nk
    hget hkind (by simpa using hbeh)
    (fun j nj hj hg => by simpa using hprev j nj hj hg) hnd
    (by simp [initialRunState])
  exact ⟨h1, by simpa [initialRunState] using h2, h3, h4⟩

/-- Witness for C6 amended: fatal on task 2 of 3. -/
theorem C6_fatal_aborts_immediately_witness :
    (executeAllTasks ⟨5, 300000, 3, 2000, false⟩
        ["sign", "fractionAI:createMatch", "fractionAI:claimRewards"]
        (fun i => if i = 1 then TaskOutcome.fatal else TaskOutcome.ok)).success
      = false ∧
    (executeAllTasks ⟨5, 300000, 3, 2000, false⟩
        ["sign", "fractionAI:createMatch", "fractionAI:claimRewards"]
        (fun i => if i = 1 then TaskOutcome.fatal else TaskOutcome.ok)).attempted
      = 1 + 1 ∧
    objGet (executeAllTasks ⟨5, 300000, 3, 2000, false⟩
        ["sign", "fractionAI:createMatch", "fractionAI:claimRewards"]
        (fun i => if i = 1 then TaskOutcome.fatal else TaskOutcome.ok)).taskResults
        "fractionAI:createMatch"
      = some ⟨false, true⟩ ∧
    (∀ j nj, 1 < j →
      ["sign", "fractionAI:createMatch", "fractionAI:claimRewards"][j]? = some nj →
      objGet (executeAllTasks ⟨5, 300000, 3, 2000, false⟩
          ["sign", "fractionAI:createMatch", "fractionAI:claimRewards"]
          (fun i => if i = 1 then TaskOutcome.fatal else TaskOutcome.ok)).taskResults
          nj
        = none) :=
  C6_fatal_aborts_immediately ⟨5, 300000, 3, 2000, false⟩
    ["sign", "fractionAI:createMatch", "fractionAI:claimRewards"]
    (fun i => if i = 1 then TaskOutcome.fatal else TaskOutcome.ok) 1
    "fractionAI:createMatch" (by decide) (by decide) rfl
    (by
      intro j nj hj hg
      have hj0 : j = 0 := by omega
      subst hj0
      have hnj : ("sign" : String) = nj := by simpa using hg
      subst hnj
      exact ⟨by decide, fun _ => by decide⟩)
    (by decide)

/-! ## Claim C7: worker-spawn ceiling -/

/-- C7: for every accounts list, `TaskManager.start` spawns exactly
`min(configuredMaxWorkers, number of accounts)` workers, each bound to a
distinct account taken in list order, and accounts beyond the ceiling are
never run.  The hypothesis `0 < maxWorkers` reflects the configuration
module, where `config.concurrency.maxWorkers = parseInt(MAX_WORKERS) || 5`
can never produce `0`. -/
theorem C7_spawns_min_of_ceiling_and_accounts (maxWorkers : Nat)
    (h : 0 < maxWorkers) (accounts : List Account) :
    spawnedAccounts maxWorkers accounts
      = accounts.take (min maxWorkers accounts.length) ∧
    (spawnedAccounts maxWorkers accounts).length
      = min maxWorkers accounts.length ∧
    ∀ i, i < min maxWorkers accounts.length →
      (spawnedAccounts maxWorkers accounts)[i]? = accounts[i]? := by
  have hm : (if maxWorkers = 0 then 5 else maxWorkers) = maxWorkers := by
    have := Nat.pos_iff_ne_zero.mp h
    simp [this]
  unfold spawnedAccounts threadCount
  rw [hm]
  refine ⟨rfl, ?_, ?_⟩
  · simp [List.length_take, Nat.min_assoc]
  · intro i hi
    exact List.getElem?_take_of_lt hi

/-- Witness for C7 at `maxWorkers = 2` over three accounts. -/
theorem C7_spawns_min_of_ceiling_and_accounts_witness :
    spawnedAccounts 2 [bareAccount, proxiedAccount, bareAccount]
      = [bareAccount, proxiedAccount, bareAccount].take
          (min 2 [bareAccount, proxiedAccount, bareAccount].length) ∧
    (spawnedAccounts 2 [bareAccount, proxiedAccount, bareAccount]).length
      = min 2 [bareAccount, proxiedAccount, bareAccount].length ∧
    ∀ i, i < min 2 [bareAccount, proxiedAccount, bareAccount].length →
      (spawnedAccounts 2 [bareAccount, proxiedAccount, bareAccount])[i]?
        = [bareAccount, proxiedAccount, bareAccount][i]? :=
  C7_spawns_min_of_ceiling_and_accounts 2 (by decide)
    [bareAccount, proxiedAccount, bareAccount]

/-! ## Claim C8: proxy assignment -/

/-- C8 counterexample: with no dynamic proxy available
(`getDynamicProxy()` returns `null`, e.g. proxying disabled),
`assignProxiesToAccounts` does not return an explicitly-proxied account
unchanged — it overwrites its proxy with `{host: null, port: null}` —
refuting the claim that such accounts are always returned unchanged in all
fields. -/
theorem C8_missing_dynamic_proxy_overwrites_explicit :
    hasExplicitProxy proxiedAccount = true ∧
    assignProxiesToAccounts none [proxiedAccount] ≠ [proxiedAccount] ∧
    (assignProxiesToAccounts none [proxiedAccount]).headD proxiedAccount
      = { proxiedAccount with proxy := some ⟨none, none, none, none⟩ } := by
  refine ⟨rfl, ?_, rfl⟩
  decide

/-- C8 amended: when a dynamic proxy is available, an account with an
explicit proxy (truthy host) is returned unchanged in all fields and an
account without one receives the dynamic proxy with no other field
modified; when no dynamic proxy is available, every account — explicitly
proxied or not — has its `proxy` field overwritten with
`{host: null, port: null}`, all other fields preserved. -/
theorem C8_assignment_frame (dyn : Proxy) (accounts : List Account)
    (i : Nat) (a : Account) (ha : accounts[i]? = some a) :
    ((assignProxiesToAccounts (some dyn) accounts)[i]? =
      some (if hasExplicitProxy a then a
            else { a with proxy := some dyn })) ∧
    ((assignProxiesToAccounts none accounts)[i]? =
      some { a with proxy := some ⟨none, none, none, none⟩ }) := by
  unfold assignProxiesToAccounts
  constructor <;> simp [List.getElem?_map, ha]

/-- Witness for C8 amended on a two-account list. -/
theorem C8_assignment_frame_witness :
    ((assignProxiesToAccounts (some ⟨some "1.2.3.4", some 80, none, none⟩)
        [proxiedAccount, bareAccount])[1]? =
      some (if hasExplicitProxy bareAccount then bareAccount
            else { bareAccount with
                     proxy := some ⟨some "1.2.3.4", some 80, none, none⟩ })) ∧
    ((assignProxiesToAccounts none [proxiedAccount, bareAccount])[1]? =
      some { bareAccount with proxy := some ⟨none, none, none, none⟩ }) :=
  C8_assignment_frame ⟨some "1.2.3.4", some 80, none, none⟩
    [proxiedAccount, bareAccount] 1 bareAccount rfl

/-! ## Claim C9: signature round-trip -/

/-- C9: `verifySignature(m, s)` returns `true` whenever
`s = signMessage(m)` was produced by the same wallet, because the address
recovered from the signature equals the signer's own address
case-insensitively.  The hypothesis is exactly the ECDSA recovery property
of the ethers library (`verifyMessage` recovers the signing wallet's
address from a signature that wallet produced, up to hex-case). -/
theorem C9_verify_accepts_own_signature (lib : EthLib)
    (hrecover : ∀ pk m, strLower (lib.recover m (lib.sign pk m))
      = strLower (lib.addressOf pk)) (pk m : String) :
    verifySignature lib pk m (signMessage lib pk m) = true := by
  simp [verifySignature, signMessage, hrecover pk m]

/-- Witness for C9 with the toy scheme. -/
theorem C9_verify_accepts_own_signature_witness :
    verifySignature toyEthLib "0xKey" "hello" (signMessage toyEthLib "0xKey" "hello") = true :=
  C9_verify_accepts_own_signature toyEthLib (fun _ _ => rfl) "0xKey" "hello"

/-! ## Claim C10: account loading -/

/-- C10: `loadAccounts` throws only when the accounts file does not exist
(the `none` case; any existing content yields `Except.ok`), silently
drops lines that are empty after trimming, start with `#`, or do not
parse as a valid wallet key (the returned count is exactly the number of
kept lines whose normalized key the wallet oracle accepts), and every
returned account has a privateKey normalized to start with `0x` together
with an address equal to the wallet address derived from that key. -/
theorem C10_loadAccounts_filters_and_normalizes (w : String → Option String) :
    loadAccounts none w = Except.error () ∧
    ∀ content, ∃ accs, loadAccounts (some content) w = Except.ok accs ∧
      accs.length = (keptLines content).countP
        (fun line => (w (normalizeKey line)).isSome) ∧
      ∀ acc ∈ accs,
        strStartsWith acc.privateKey "0x" = true ∧
        w acc.privateKey = some acc.address ∧
        ∃ line ∈ keptLines content, acc.privateKey = normalizeKey line := by
  refine ⟨rfl, ?_⟩
  intro content
  refine ⟨_, rfl, ?_, ?_⟩
  · exact kmBuild_length w (keptLines content) 0
  · intro acc hacc
    exact kmBuild_mem w (keptLines content) 0 acc hacc

end FractionBot
